import Mathlib

/-!
Verification development for the selectable core of `xterm256_colors`
(`xterm256_colors/utils.py`, `xterm256_colors/_compat.py`,
`xterm256_colors/colors.py`), shallowly embedded in Lean.

Modelling conventions:
* An `XtermColor` used as an opaque palette element is embedded as a natural
  number (`Color`); the algorithms in `utils.py` only ever hash and compare
  palette elements.
* Python `float` distances are embedded as `ℚ`: the algorithms only compare,
  add and divide distances, and every claim here is about order/branching
  behaviour, not about rounding of IEEE doubles.
* A pre-supplied `dist_mat` (a `dict[color, dict[color, float]]` assumed to
  hold every queried key, which is how `find_differentiated_colors` uses it)
  is embedded as a total function `DistFn`.  The dictionary built by
  `calculate_distance_matrix` is embedded separately as an association list
  (`List DistEntry`) with `matLookup` returning `Option ℚ` (`none` models a
  Python `KeyError`).
* Python's default `min_dist = float(-Inf)` makes the rejection test
  `dist < min_dist` always false; theorems about default-`min_dist` calls
  quantify over any `minDist` that rejects nothing (or hold for every
  `minDist`).
* The `while len(subset) < n` loop of `find_differentiated_colors` is not
  structurally terminating (it really can loop forever), so it is embedded
  with explicit fuel counting loop iterations: `.ok none` means the loop is
  still running when the fuel bound is reached — `(∀ fuel, result = .ok none)`
  states divergence — while `.error ()` models an uncaught Python exception
  (`statistics.StatisticsError` from `statistics.mean([])`).
-/

abbrev Color := Nat

abbrev DistFn := Color → Color → ℚ

/-- All ordered pairs `(a, b)` where `b` occurs after `a` in the list: the
iteration order of `for i, a in enumerate(colors): for b in colors[i + 1:]`
used by both `calculate_distance_matrix` and the seed phase of
`find_differentiated_colors`.  For the matrix builder this list is also the
trace of calls to the external distance function `delta_e_cie2000`: exactly
one call per element. -/
def pairsAfter : List Color → List (Color × Color)
  | [] => []
  | a :: rest => rest.map (fun b => (a, b)) ++ pairsAfter rest

/-- One entry `dist_mat[a][b] = d` of the distance dictionary. -/
abbrev DistEntry := Color × Color × ℚ

/-- Lookup `dist_mat[a][b]`; `none` models a `KeyError`.  (The Python dict has
unique keys whenever the palette has no duplicates, which is the only case the
claims quantify over, so first-match association-list lookup agrees with it.) -/
def matLookup : List DistEntry → Color → Color → Option ℚ
  | [], _, _ => none
  | e :: rest, a, b => if e.1 = a ∧ e.2.1 = b then some e.2.2 else matLookup rest a b

/-- The entries contributed by one outer-loop iteration of
`calculate_distance_matrix` with loop variable `a`: for each later colour `b`,
`dist_mat[a][b] = dist_mat[b][a] = delta_e_cie2000(a, b)` — both directions
stored from a single external call. -/
def rowEntries (f : DistFn) (a : Color) : List Color → List DistEntry
  | [] => []
  | b :: rest => (a, b, f a b) :: (b, a, f a b) :: rowEntries f a rest

/-- `calculate_distance_matrix(colors)` from `utils.py`, with the external
`delta_e_cie2000(a.as_lab_color, b.as_lab_color)` abstracted as `f`. -/
def calculate_distance_matrix (f : DistFn) : List Color → List DistEntry
  | [] => []
  | a :: rest => rowEntries f a rest ++ calculate_distance_matrix f rest

/-- The seed-phase scan of `find_differentiated_colors`: runs over the pair
list keeping `best_pair` (updated only on a strictly larger distance, so the
first pair attaining the running maximum wins) and `max_dist` (initially
`0.0`). -/
def seedScan (mat : DistFn) : List (Color × Color) → Option (Color × Color) → ℚ → Option (Color × Color)
  | [], best, _ => best
  | p :: rest, best, maxDist =>
    if maxDist < mat p.1 p.2 then seedScan mat rest (some p) (mat p.1 p.2)
    else seedScan mat rest best maxDist

/-- The final `best_pair` of the seed phase (`none` embeds the empty tuple
`()`, kept when no pair has distance strictly above the initial `0.0`). -/
def bestPair (mat : DistFn) (colors : List Color) : Option (Color × Color) :=
  seedScan mat (pairsAfter colors) none 0

/-- `subset = {*best_pair}`: the subset, as a duplicate-free list, right after
seeding. -/
def seedSubset (mat : DistFn) (colors : List Color) : List Color :=
  match bestPair mat colors with
  | none => []
  | some (a, b) => if a = b then [a] else [a, b]

/-- The inner rejection test of the growth phase: some already-selected member
is strictly closer to `v` than `min_dist` (the `dist < min_dist` early-`break`
loop sets `is_below_min_dist`). -/
def isBelowMinDist (mat : DistFn) (minDist : ℚ) (v : Color) (subset : List Color) : Bool :=
  subset.any (fun w => mat v w < minDist)

/-- `statistics.mean(dists)` for the accepted candidate `v`: the arithmetic
mean of the distances from `v` to every current member. -/
def meanDist (mat : DistFn) (v : Color) (subset : List Color) : ℚ :=
  (subset.map (fun w => mat v w)).sum / (subset.length : ℚ)

/-- One growth round: the `for v in colors` scan keeping `v_avg_best`
(`Option Color`, `none` for Python `None`) and `max_avg_dist` (initially
`0.0`, updated only on a strictly larger mean).  When an accepted candidate is
scored against an empty subset, `statistics.mean([])` raises
`statistics.StatisticsError`, embedded as `.error ()`. -/
def growScan (mat : DistFn) (minDist : ℚ) (subset : List Color) :
    List Color → ℚ → Option Color → Except Unit (Option Color)
  | [], _, best => .ok best
  | v :: rest, maxAvg, best =>
    if v ∈ subset then growScan mat minDist subset rest maxAvg best
    else if isBelowMinDist mat minDist v subset then growScan mat minDist subset rest maxAvg best
    else if subset.isEmpty then .error ()
    else if maxAvg < meanDist mat v subset then
      growScan mat minDist subset rest (meanDist mat v subset) (some v)
    else growScan mat minDist subset rest maxAvg best

/-- The `while len(subset) < n` loop, fuel-indexed by iteration count.
`n : ℤ` because Python accepts any integer.  A round that selects somebody
(`.ok (some v)`) adds the new member; a round that selects nobody leaves the
subset unchanged and the loop condition is simply re-checked — exactly the
source, which has no early-termination branch. -/
def growLoop (mat : DistFn) (minDist : ℚ) (colors : List Color) (n : ℤ) :
    Nat → List Color → Except Unit (Option (List Color))
  | 0, subset =>
    if (subset.length : ℤ) < n then .ok none else .ok (some subset)
  | fuel + 1, subset =>
    if (subset.length : ℤ) < n then
      match growScan mat minDist subset colors 0 none with
      | .error e => .error e
      | .ok none => growLoop mat minDist colors n fuel subset
      | .ok (some v) => growLoop mat minDist colors n fuel (subset ++ [v])
    else .ok (some subset)

/-- `find_differentiated_colors(colors, n, dist_mat, min_dist)` from
`utils.py`, in the call mode with a pre-supplied matrix (embedded as the total
function `mat`).  Return value semantics: `.ok (some s)` — the function
returns the set `s`; `.error ()` — it raises `statistics.StatisticsError`;
`.ok none` — the growth loop is still running after `fuel` iterations. -/
def find_differentiated_colors (mat : DistFn) (minDist : ℚ) (colors : List Color)
    (n : ℤ) (fuel : Nat) : Except Unit (Option (List Color)) :=
  growLoop mat minDist colors n fuel (seedSubset mat colors)

/-- Error raised by `require_colormath` in `_compat.py` when the `colormath`
dependency is missing (a `RuntimeError` with a fixed message in the source). -/
inductive CapabilityError where
  | capabilityUnavailable
deriving DecidableEq

/-- `require_colormath()` from `_compat.py`, with `HAS_COLORMATH` as the
parameter `has`. -/
def require_colormath (has : Bool) : Except CapabilityError Unit :=
  if has then .ok () else .error .capabilityUnavailable

/-- The `@requires_colormath`-decorated `calculate_distance_matrix`, paired
with the trace of external distance calls it performs: the decorator runs
`require_colormath()` first, so on failure the wrapped function body — and
with it every `delta_e_cie2000` call — is never entered. -/
def calculate_distance_matrix_traced (has : Bool) (f : DistFn) (colors : List Color) :
    Except CapabilityError (List DistEntry) × List (Color × Color) :=
  match require_colormath has with
  | .error e => (.error e, [])
  | .ok _ => (.ok (calculate_distance_matrix f colors), pairsAfter colors)

/-- `find_differentiated_colors(colors, n, dist_mat=None, min_dist)`: with no
pre-computed matrix it first calls the decorated builder, propagating its
error before any selection work.  In the success path the selector reads the
built dictionary (`.getD 0` is unreachable for the keys the algorithm
queries on a duplicate-free palette: both components of every queried pair
are distinct palette members, and the built matrix holds all such keys). -/
def find_differentiated_colors_nomatrix (has : Bool) (f : DistFn) (minDist : ℚ)
    (colors : List Color) (n : ℤ) (fuel : Nat) :
    Except CapabilityError (Except Unit (Option (List Color))) × List (Color × Color) :=
  match calculate_distance_matrix_traced has f colors with
  | (.error e, t) => (.error e, t)
  | (.ok m, t) =>
    (.ok (find_differentiated_colors (fun a b => (matLookup m a b).getD 0) minDist colors n fuel), t)

instance {ε α : Type} [DecidableEq ε] [DecidableEq α] : DecidableEq (Except ε α) := fun x y =>
  match x, y with
  | .ok a, .ok b =>
    if h : a = b then .isTrue (by rw [h]) else .isFalse (fun hc => h (Except.ok.inj hc))
  | .error a, .error b =>
    if h : a = b then .isTrue (by rw [h]) else .isFalse (fun hc => h (Except.error.inj hc))
  | .ok _, .error _ => .isFalse (fun hc => Except.noConfusion hc)
  | .error _, .ok _ => .isFalse (fun hc => Except.noConfusion hc)

/-- The concrete four-colour distance matrix of the specification scenarios:
palette `[A, B, C, D] = [0, 1, 2, 3]` with `AB=10, AC=1, AD=5, BC=6, BD=2,
CD=8` (symmetric, zero elsewhere). -/
def exDist : DistFn := fun a b =>
  match a, b with
  | 0, 1 => 10 | 1, 0 => 10
  | 0, 2 => 1 | 2, 0 => 1
  | 0, 3 => 5 | 3, 0 => 5
  | 1, 2 => 6 | 2, 1 => 6
  | 1, 3 => 2 | 3, 1 => 2
  | 2, 3 => 8 | 3, 2 => 8
  | _, _ => 0

/-- `XtermColor` from `colors.py`, restricted to the constructor fields the
claims depend on. -/
structure XtermColor where
  code : Nat
  rgb : Nat
  name : String
  is_background : Bool
deriving DecidableEq

/-- `XtermColor.r`: `(self.rgb >> 24) & 0xFF` (the shift amount is the
source's, kept verbatim). -/
def XtermColor.r (c : XtermColor) : Nat := (c.rgb >>> 24) % 256

/-- `XtermColor.g`: `(self.rgb >> 16) & 0xFF`. -/
def XtermColor.g (c : XtermColor) : Nat := (c.rgb >>> 16) % 256

/-- `XtermColor.b`: `self.rgb & 0xFF`. -/
def XtermColor.b (c : XtermColor) : Nat := c.rgb % 256

/-- `XtermColor.red = self.r / 255.0`. -/
def XtermColor.red (c : XtermColor) : ℚ := (c.r : ℚ) / 255

/-- `XtermColor.green = self.g / 255.0`. -/
def XtermColor.green (c : XtermColor) : ℚ := (c.g : ℚ) / 255

/-- `XtermColor.blue = self.b / 255.0`. -/
def XtermColor.blue (c : XtermColor) : ℚ := (c.b : ℚ) / 255

/-- The radicand of `perceived_brightness`, i.e. the square of
`math.sqrt(0.299 * red**2 + 0.587 * green**2 + 0.114 * blue**2)`.  The square
root itself is irrational in general, so the brightness comparisons below are
embedded on squares: `sqrt x >= 0.5  iff  x >= 0.25` for `x >= 0`, because the
square root is monotone (this also holds for the correctly rounded IEEE
`math.sqrt`, whose argument here is nonnegative). -/
def XtermColor.perceived_brightness_sq (c : XtermColor) : ℚ :=
  299 / 1000 * c.red ^ 2 + 587 / 1000 * c.green ^ 2 + 114 / 1000 * c.blue ^ 2

/-- `XtermColor.is_bright = self.perceived_brightness >= 0.5`, embedded on
squares. -/
def XtermColor.is_bright (c : XtermColor) : Bool :=
  decide (1 / 4 ≤ c.perceived_brightness_sq)

/-- `XtermColor.is_dark = self.perceived_brightness < 0.5`, embedded on
squares. -/
def XtermColor.is_dark (c : XtermColor) : Bool :=
  decide (c.perceived_brightness_sq < 1 / 4)

/-- The colour-classifying loop of `XtermCodes.__init__`: from a
name/code/RGB table it builds `(all_colors, bright_colors, dark_colors)`;
every constructed colour is recorded in `all_colors` and in exactly one of
`bright_colors` / `dark_colors` according to `color.is_bright`. -/
def initColors (isbg : Bool) :
    List (String × Nat × Nat) →
    List (String × XtermColor) × List (String × XtermColor) × List (String × XtermColor)
  | [] => ([], [], [])
  | (nm, code, rgb) :: rest =>
    let color : XtermColor := ⟨code, rgb, nm, isbg⟩
    let prev := initColors isbg rest
    if color.is_bright then ((nm, color) :: prev.1, (nm, color) :: prev.2.1, prev.2.2)
    else ((nm, color) :: prev.1, prev.2.1, (nm, color) :: prev.2.2)

/-- Decides whether an ordered pair represents the unordered pair `{a, b}`;
used to count external distance calls per unordered pair. -/
def unordered (a b : Color) (p : Color × Color) : Bool :=
  decide ((p.1 = a ∧ p.2 = b) ∨ (p.1 = b ∧ p.2 = a))

lemma mem_pairsAfter {l : List Color} {p : Color × Color} (hp : p ∈ pairsAfter l) :
    p.1 ∈ l ∧ p.2 ∈ l := by
  induction l with
  | nil => simp [pairsAfter] at hp
  | cons a rest ih =>
    simp only [pairsAfter, List.mem_append, List.mem_map] at hp
    rcases hp with ⟨b, hb, rfl⟩ | hp
    · exact ⟨List.mem_cons_self a rest, List.mem_cons_of_mem a hb⟩
    · rcases ih hp with ⟨h1, h2⟩
      exact ⟨List.mem_cons_of_mem a h1, List.mem_cons_of_mem a h2⟩

lemma pairsAfter_ne {l : List Color} (hl : l.Nodup) {p : Color × Color}
    (hp : p ∈ pairsAfter l) : p.1 ≠ p.2 := by
  induction l with
  | nil => simp [pairsAfter] at hp
  | cons a rest ih =>
    rcases List.nodup_cons.1 hl with ⟨ha, hrest⟩
    simp only [pairsAfter, List.mem_append, List.mem_map] at hp
    rcases hp with ⟨b, hb, rfl⟩ | hp
    · exact fun h => ha (show a ∈ rest from (show a = b from h) ▸ hb)
    · exact ih hrest hp

lemma matLookup_append_some {l1 : List DistEntry} (l2 : List DistEntry) {a b : Color} {d : ℚ}
    (h : matLookup l1 a b = some d) : matLookup (l1 ++ l2) a b = some d := by
  induction l1 with
  | nil => simp [matLookup] at h
  | cons e rest ih =>
    by_cases hc : e.1 = a ∧ e.2.1 = b
    · simpa [matLookup, hc] using h
    · simp only [List.cons_append, matLookup, if_neg hc] at h ⊢
      exact ih h

lemma matLookup_append_none {l1 : List DistEntry} (l2 : List DistEntry) {a b : Color}
    (h : matLookup l1 a b = none) : matLookup (l1 ++ l2) a b = matLookup l2 a b := by
  induction l1 with
  | nil => simp [matLookup]
  | cons e rest ih =>
    by_cases hc : e.1 = a ∧ e.2.1 = b
    · simp [matLookup, hc] at h
    · simp only [List.cons_append, matLookup, if_neg hc] at h ⊢
      exact ih h

lemma rowEntries_lookup_left {f : DistFn} {c : Color} {l : List Color} (hc : c ∉ l) {y : Color}
    (hy : y ∈ l) : matLookup (rowEntries f c l) c y = some (f c y) := by
  induction l with
  | nil => simp at hy
  | cons b rest ih =>
    have hb : b ≠ c := fun h => hc (h ▸ List.mem_cons_self b rest)
    have hcr : c ∉ rest := fun h => hc (List.mem_cons_of_mem _ h)
    by_cases hyb : y = b
    · subst hyb; simp [rowEntries, matLookup]
    · have hby : b ≠ y := fun h => hyb h.symm
      have hyr : y ∈ rest := (List.mem_cons.1 hy).resolve_left hyb
      simp [rowEntries, matLookup, hby, hb, ih hcr hyr]

lemma rowEntries_lookup_right {f : DistFn} {c : Color} {l : List Color} (hc : c ∉ l) {x : Color}
    (hx : x ∈ l) : matLookup (rowEntries f c l) x c = some (f c x) := by
  induction l with
  | nil => simp at hx
  | cons b rest ih =>
    have hb : b ≠ c := fun h => hc (h ▸ List.mem_cons_self b rest)
    have hcx : c ≠ x := fun h => hc (h ▸ hx)
    have hcr : c ∉ rest := fun h => hc (List.mem_cons_of_mem _ h)
    by_cases hxb : x = b
    · subst hxb; simp [rowEntries, matLookup, hcx, hb]
    · have hbx : b ≠ x := fun h => hxb h.symm
      have hxr : x ∈ rest := (List.mem_cons.1 hx).resolve_left hxb
      simp [rowEntries, matLookup, hcx, hbx, hb, ih hcr hxr]

lemma rowEntries_lookup_none {f : DistFn} {c : Color} {l : List Color} {x y : Color}
    (hx : x ≠ c) (hy : y ≠ c) : matLookup (rowEntries f c l) x y = none := by
  induction l with
  | nil => simp [rowEntries, matLookup]
  | cons b rest ih =>
    have h1 : c ≠ x := fun h => hx h.symm
    have h2 : c ≠ y := fun h => hy h.symm
    simp [rowEntries, matLookup, h1, h2, ih]

/-- On a duplicate-free palette, the built matrix answers both directions of
every distinct pair with one and the same stored value. -/
lemma calc_lookup_both {f : DistFn} {colors : List Color} (h : colors.Nodup) {a b : Color}
    (ha : a ∈ colors) (hb : b ∈ colors) (hab : a ≠ b) :
    ∃ d, matLookup (calculate_distance_matrix f colors) a b = some d ∧
      matLookup (calculate_distance_matrix f colors) b a = some d := by
  induction colors with
  | nil => simp at ha
  | cons c rest ih =>
    rcases List.nodup_cons.1 h with ⟨hc, hrest⟩
    simp only [calculate_distance_matrix]
    by_cases hac : a = c
    · subst hac
      have hbr : b ∈ rest := (List.mem_cons.1 hb).resolve_left fun h2 => hab h2.symm
      exact ⟨f a b, matLookup_append_some _ (rowEntries_lookup_left hc hbr),
        matLookup_append_some _ (rowEntries_lookup_right hc hbr)⟩
    · by_cases hbc : b = c
      · subst hbc
        have har : a ∈ rest := (List.mem_cons.1 ha).resolve_left hac
        exact ⟨f b a, matLookup_append_some _ (rowEntries_lookup_right hc har),
          matLookup_append_some _ (rowEntries_lookup_left hc har)⟩
      · have har : a ∈ rest := (List.mem_cons.1 ha).resolve_left hac
        have hbr : b ∈ rest := (List.mem_cons.1 hb).resolve_left hbc
        rcases ih hrest har hbr with ⟨d, h1, h2⟩
        refine ⟨d, ?_, ?_⟩
        · rw [matLookup_append_none _ (rowEntries_lookup_none hac hbc)]; exact h1
        · rw [matLookup_append_none _ (rowEntries_lookup_none hbc hac)]; exact h2

lemma countP_map_pair_zero {l : List Color} {c a b : Color} (h1 : c ≠ a) (h2 : c ≠ b) :
    (l.map (fun x => (c, x))).countP (unordered a b) = 0 := by
  rw [List.countP_eq_zero]
  intro p hp
  rcases List.mem_map.1 hp with ⟨x, _, rfl⟩
  simp [unordered, h1, h2]

/-- A predicate characterising exactly one member of a duplicate-free list is
satisfied exactly once. -/
lemma count_pred_one {l : List Color} (hl : l.Nodup) {b : Color} (hb : b ∈ l)
    (p : Color → Bool) (hp : ∀ x, p x = true ↔ x = b) : l.countP p = 1 := by
  induction l with
  | nil => simp at hb
  | cons x rest ih =>
    rcases List.nodup_cons.1 hl with ⟨hx, hrest⟩
    simp only [List.countP_cons]
    by_cases hxb : x = b
    · have h0 : rest.countP p = 0 := by
        rw [List.countP_eq_zero]
        intro t ht hpt
        have htb : t = b := (hp t).1 hpt
        exact hx (by rw [hxb, ← htb]; exact ht)
      have hpx : p x = true := (hp x).2 hxb
      simp [h0, hpx]
    · have hbr : b ∈ rest := (List.mem_cons.1 hb).resolve_left fun h => hxb h.symm
      have hpx : ¬ p x = true := fun h => hxb ((hp x).1 h)
      simp [hpx, ih hrest hbr]

lemma countP_map_left {l : List Color} {a b : Color} (ha : a ∉ l) (hl : l.Nodup)
    (hb : b ∈ l) : (l.map (fun x => (a, x))).countP (unordered a b) = 1 := by
  have hab : a ≠ b := fun h => ha (h ▸ hb)
  rw [List.countP_map]
  refine count_pred_one hl hb _ fun x => ?_
  simp [unordered, Function.comp, hab]

lemma countP_map_right {l : List Color} {a b : Color} (hb : b ∉ l) (hl : l.Nodup)
    (ha : a ∈ l) : (l.map (fun x => (b, x))).countP (unordered a b) = 1 := by
  have hba : b ≠ a := fun h => hb (h ▸ ha)
  rw [List.countP_map]
  refine count_pred_one hl ha _ fun x => ?_
  simp [unordered, Function.comp, hba]

lemma countP_pairsAfter_zero_left {l : List Color} {a b : Color} (ha : a ∉ l) :
    (pairsAfter l).countP (unordered a b) = 0 := by
  rw [List.countP_eq_zero]
  intro p hp
  rcases mem_pairsAfter hp with ⟨h1, h2⟩
  simp only [unordered, decide_eq_true_eq]
  rintro (⟨hpa, _⟩ | ⟨_, hpa⟩)
  · exact ha (hpa ▸ h1)
  · exact ha (hpa ▸ h2)

lemma countP_pairsAfter_zero_right {l : List Color} {a b : Color} (hb : b ∉ l) :
    (pairsAfter l).countP (unordered a b) = 0 := by
  rw [List.countP_eq_zero]
  intro p hp
  rcases mem_pairsAfter hp with ⟨h1, h2⟩
  simp only [unordered, decide_eq_true_eq]
  rintro (⟨_, hpb⟩ | ⟨hpb, _⟩)
  · exact hb (hpb ▸ h2)
  · exact hb (hpb ▸ h1)

/-- The builder's call trace visits each unordered pair of distinct palette
members exactly once. -/
lemma countP_pairsAfter_one {l : List Color} (hl : l.Nodup) {a b : Color}
    (ha : a ∈ l) (hb : b ∈ l) (hab : a ≠ b) :
    (pairsAfter l).countP (unordered a b) = 1 := by
  induction l with
  | nil => simp at ha
  | cons c rest ih =>
    rcases List.nodup_cons.1 hl with ⟨hc, hrest⟩
    simp only [pairsAfter, List.countP_append]
    by_cases hac : a = c
    · subst hac
      have hbr : b ∈ rest := (List.mem_cons.1 hb).resolve_left fun h => hab h.symm
      rw [countP_map_left hc hrest hbr, countP_pairsAfter_zero_left hc]
    · by_cases hbc : b = c
      · subst hbc
        have har : a ∈ rest := (List.mem_cons.1 ha).resolve_left hac
        rw [countP_map_right hc hrest har, countP_pairsAfter_zero_right hc]
      · have har : a ∈ rest := (List.mem_cons.1 ha).resolve_left hac
        have hbr : b ∈ rest := (List.mem_cons.1 hb).resolve_left hbc
        have h1 : c ≠ a := fun h => hac h.symm
        have h2 : c ≠ b := fun h => hbc h.symm
        rw [countP_map_pair_zero h1 h2, ih hrest har hbr]

lemma rowEntries_eq_bind (f : DistFn) (a : Color) (l : List Color) :
    rowEntries f a l =
      (l.map (fun b => (a, b))).flatMap
        (fun p => [(p.1, p.2, f p.1 p.2), (p.2, p.1, f p.1 p.2)]) := by
  induction l with
  | nil => simp [rowEntries]
  | cons b rest ih => simp [rowEntries, ih]

/-- The matrix really is one external call per unordered pair producing both
directed entries: interleaving the two stores into the call trace
reconstructs the builder's output verbatim. -/
lemma calc_eq_trace_bind (f : DistFn) (colors : List Color) :
    calculate_distance_matrix f colors =
      (pairsAfter colors).flatMap
        (fun p => [(p.1, p.2, f p.1 p.2), (p.2, p.1, f p.1 p.2)]) := by
  induction colors with
  | nil => simp [calculate_distance_matrix, pairsAfter]
  | cons a rest ih =>
    simp [calculate_distance_matrix, pairsAfter, ih, rowEntries_eq_bind]


lemma seedScan_isSome {mat : DistFn} :
    ∀ (pairs : List (Color × Color)) (q : Color × Color) (maxd : ℚ),
      ∃ r, seedScan mat pairs (some q) maxd = some r := by
  intro pairs
  induction pairs with
  | nil => exact fun q maxd => ⟨q, rfl⟩
  | cons p rest ih =>
    intro q maxd
    simp only [seedScan]
    by_cases h : maxd < mat p.1 p.2
    · rw [if_pos h]; exact ih p (mat p.1 p.2)
    · rw [if_neg h]; exact ih q maxd

lemma seedScan_some_of_exists {mat : DistFn} :
    ∀ {pairs : List (Color × Color)} {best : Option (Color × Color)} {maxd : ℚ},
      (∃ p ∈ pairs, maxd < mat p.1 p.2) → ∃ r, seedScan mat pairs best maxd = some r := by
  intro pairs
  induction pairs with
  | nil =>
    rintro best maxd ⟨p, hp, _⟩
    simp at hp
  | cons p rest ih =>
    rintro best maxd ⟨r, hr, hlt⟩
    simp only [seedScan]
    by_cases h : maxd < mat p.1 p.2
    · rw [if_pos h]; exact seedScan_isSome rest p _
    · rw [if_neg h]
      rcases List.mem_cons.1 hr with rfl | hr2
      · exact absurd hlt h
      · exact ih ⟨r, hr2, hlt⟩

/-- The `best_pair` scan keeps the first strict improvement: its result is
either the inherited accumulator (when nothing beats it) or the first pair in
scan order whose distance strictly exceeds everything before it and is not
strictly exceeded by anything after it. -/
lemma seedScan_first {mat : DistFn} :
    ∀ (pairs : List (Color × Color)) (best : Option (Color × Color)) (maxd : ℚ)
      (q : Color × Color), seedScan mat pairs best maxd = some q →
      (best = some q ∧ ∀ p ∈ pairs, mat p.1 p.2 ≤ maxd) ∨
      (∃ l1 l2, pairs = l1 ++ q :: l2 ∧ maxd < mat q.1 q.2 ∧
        (∀ p ∈ l1, mat p.1 p.2 < mat q.1 q.2) ∧ (∀ p ∈ l2, mat p.1 p.2 ≤ mat q.1 q.2)) := by
  intro pairs
  induction pairs with
  | nil =>
    intro best maxd q h
    exact Or.inl ⟨h, by simp⟩
  | cons p rest ih =>
    intro best maxd q h
    simp only [seedScan] at h
    by_cases hlt : maxd < mat p.1 p.2
    · rw [if_pos hlt] at h
      rcases ih _ _ _ h with ⟨heq, hall⟩ | ⟨l1, l2, hsplit, hmax, hl1, hl2⟩
      · have hpq : p = q := Option.some.inj heq
        subst hpq
        exact Or.inr ⟨[], rest, by simp, hlt, by simp, hall⟩
      · refine Or.inr ⟨p :: l1, l2, by simp [hsplit], lt_trans hlt hmax, ?_, hl2⟩
        intro r hr
        rcases List.mem_cons.1 hr with rfl | hr2
        · exact hmax
        · exact hl1 r hr2
    · rw [if_neg hlt] at h
      have hle : mat p.1 p.2 ≤ maxd := not_lt.1 hlt
      rcases ih _ _ _ h with ⟨heq, hall⟩ | ⟨l1, l2, hsplit, hmax, hl1, hl2⟩
      · refine Or.inl ⟨heq, ?_⟩
        intro r hr
        rcases List.mem_cons.1 hr with rfl | hr2
        · exact hle
        · exact hall r hr2
      · refine Or.inr ⟨p :: l1, l2, by simp [hsplit], hmax, ?_, hl2⟩
        intro r hr
        rcases List.mem_cons.1 hr with rfl | hr2
        · exact lt_of_le_of_lt hle hmax
        · exact hl1 r hr2

lemma bestPair_first {mat : DistFn} {colors : List Color} {q : Color × Color}
    (h : bestPair mat colors = some q) :
    ∃ l1 l2, pairsAfter colors = l1 ++ q :: l2 ∧ 0 < mat q.1 q.2 ∧
      (∀ p ∈ l1, mat p.1 p.2 < mat q.1 q.2) ∧ (∀ p ∈ l2, mat p.1 p.2 ≤ mat q.1 q.2) := by
  rcases seedScan_first _ _ _ _ h with ⟨heq, _⟩ | hr
  · exact absurd heq (by simp)
  · exact hr

lemma bestPair_mem {mat : DistFn} {colors : List Color} {q : Color × Color}
    (h : bestPair mat colors = some q) : q ∈ pairsAfter colors := by
  rcases bestPair_first h with ⟨l1, l2, hsplit, _, _, _⟩
  rw [hsplit]
  exact List.mem_append_right _ (List.mem_cons_self _ _)

lemma seedSubset_nodup (mat : DistFn) (colors : List Color) : (seedSubset mat colors).Nodup := by
  cases h : bestPair mat colors with
  | none => simp [seedSubset, h]
  | some q =>
    obtain ⟨a, b⟩ := q
    by_cases hab : a = b <;> simp [seedSubset, h, hab]

lemma seedSubset_subset {mat : DistFn} {colors : List Color} :
    ∀ c ∈ seedSubset mat colors, c ∈ colors := by
  cases h : bestPair mat colors with
  | none => simp [seedSubset, h]
  | some q =>
    obtain ⟨a, b⟩ := q
    have hmem := mem_pairsAfter (bestPair_mem h)
    by_cases hab : a = b
    · simp only [seedSubset, h, if_pos hab]
      intro c hc
      rw [List.mem_singleton.1 hc]
      exact hmem.1
    · simp only [seedSubset, h, if_neg hab]
      intro c hc
      rcases List.mem_cons.1 hc with rfl | hc2
      · exact hmem.1
      · rw [List.mem_singleton.1 hc2]
        exact hmem.2

lemma seedSubset_length_le (mat : DistFn) (colors : List Color) :
    (seedSubset mat colors).length ≤ 2 := by
  cases h : bestPair mat colors with
  | none => simp [seedSubset, h]
  | some q =>
    obtain ⟨a, b⟩ := q
    by_cases hab : a = b <;> simp [seedSubset, h, hab]

/-- A candidate selected by a growth round is a palette member not already in
the subset (or was the inherited accumulator). -/
lemma growScan_some {mat : DistFn} {md : ℚ} {subset : List Color} :
    ∀ {l : List Color} {maxAvg : ℚ} {best : Option Color} {v : Color},
      growScan mat md subset l maxAvg best = .ok (some v) →
      best = some v ∨ (v ∈ l ∧ v ∉ subset) := by
  intro l
  induction l with
  | nil =>
    intro maxAvg best v h
    simp only [growScan] at h
    exact Or.inl (Except.ok.inj h)
  | cons x rest ih =>
    intro maxAvg best v h
    simp only [growScan] at h
    by_cases h1 : x ∈ subset
    · rw [if_pos h1] at h
      rcases ih h with hb | hm
      · exact Or.inl hb
      · exact Or.inr ⟨List.mem_cons_of_mem _ hm.1, hm.2⟩
    · rw [if_neg h1] at h
      by_cases h2 : isBelowMinDist mat md x subset = true
      · rw [if_pos h2] at h
        rcases ih h with hb | hm
        · exact Or.inl hb
        · exact Or.inr ⟨List.mem_cons_of_mem _ hm.1, hm.2⟩
      · rw [if_neg h2] at h
        by_cases h3 : subset.isEmpty = true
        · rw [if_pos h3] at h
          exact absurd h (by simp)
        · rw [if_neg h3] at h
          by_cases h4 : maxAvg < meanDist mat x subset
          · rw [if_pos h4] at h
            rcases ih h with hb | hm
            · have hxv : x = v := Option.some.inj hb
              exact Or.inr ⟨hxv ▸ List.mem_cons_self x rest, hxv ▸ h1⟩
            · exact Or.inr ⟨List.mem_cons_of_mem _ hm.1, hm.2⟩
          · rw [if_neg h4] at h
            rcases ih h with hb | hm
            · exact Or.inl hb
            · exact Or.inr ⟨List.mem_cons_of_mem _ hm.1, hm.2⟩

/-- When the current subset already has enough members the loop returns it at
once, for any fuel. -/
lemma growLoop_not_lt {mat : DistFn} {md : ℚ} {colors : List Color} {n : ℤ}
    {fuel : Nat} {subset : List Color} (h : ¬ (subset.length : ℤ) < n) :
    growLoop mat md colors n fuel subset = .ok (some subset) := by
  cases fuel <;> simp [growLoop, h]

/-- When a growth round selects nobody the loop state never changes again: the
source loops forever, so every fuel bound is exhausted. -/
lemma growLoop_stuck {mat : DistFn} {md : ℚ} {colors : List Color} {n : ℤ}
    {subset : List Color} (hscan : growScan mat md subset colors 0 none = .ok none) :
    ∀ fuel, (subset.length : ℤ) < n → growLoop mat md colors n fuel subset = .ok none := by
  intro fuel
  induction fuel with
  | zero =>
    intro h
    simp [growLoop, h]
  | succ fuel ih =>
    intro h
    simp only [growLoop]
    rw [if_pos h, hscan]
    exact ih h

/-- On an empty starting subset every scan either finds no scorable candidate
(empty palette) or raises on the first candidate it scores. -/
lemma growScan_empty_subset (mat : DistFn) (md : ℚ) :
    ∀ l : List Color, growScan mat md [] l 0 none = .ok none ∨
      growScan mat md [] l 0 none = .error () := by
  intro l
  cases l with
  | nil => exact Or.inl rfl
  | cons v rest =>
    right
    simp [growScan, isBelowMinDist]

lemma growLoop_empty_start {mat : DistFn} {md : ℚ} {colors : List Color} {n : ℤ} :
    ∀ (fuel : Nat) (s : List Color),
      growLoop mat md colors n fuel [] = .ok (some s) → s = [] := by
  intro fuel
  induction fuel with
  | zero =>
    intro s h
    simp only [growLoop, List.length_nil, Nat.cast_zero] at h
    by_cases hlt : (0 : ℤ) < n
    · rw [if_pos hlt] at h
      exact absurd h (by simp)
    · rw [if_neg hlt] at h
      exact (Option.some.inj (Except.ok.inj h)).symm
  | succ fuel ih =>
    intro s h
    simp only [growLoop, List.length_nil, Nat.cast_zero] at h
    by_cases hlt : (0 : ℤ) < n
    · rw [if_pos hlt] at h
      rcases growScan_empty_subset mat md colors with hs | hs
      · rw [hs] at h
        exact ih s h
      · rw [hs] at h
        exact absurd h (by simp)
    · rw [if_neg hlt] at h
      exact (Option.some.inj (Except.ok.inj h)).symm

/-- The loop only ever adds members: whatever it starts with is in its result. -/
lemma growLoop_mono {mat : DistFn} {md : ℚ} {colors : List Color} {n : ℤ} :
    ∀ (fuel : Nat) (subset s : List Color),
      growLoop mat md colors n fuel subset = .ok (some s) → ∀ c ∈ subset, c ∈ s := by
  intro fuel
  induction fuel with
  | zero =>
    intro subset s h
    by_cases hlt : (subset.length : ℤ) < n
    · simp [growLoop, hlt] at h
    · simp only [growLoop, if_neg hlt] at h
      rw [← Option.some.inj (Except.ok.inj h)]
      exact fun c hc => hc
  | succ fuel ih =>
    intro subset s h
    by_cases hlt : (subset.length : ℤ) < n
    · simp only [growLoop, if_pos hlt] at h
      cases hscan : growScan mat md subset colors 0 none with
      | error e =>
        rw [hscan] at h
        exact absurd h (by simp)
      | ok ov =>
        rw [hscan] at h
        cases ov with
        | none => exact ih _ _ h
        | some v => exact fun c hc => ih _ _ h c (List.mem_append_left _ hc)
    · simp only [growLoop, if_neg hlt] at h
      rw [← Option.some.inj (Except.ok.inj h)]
      exact fun c hc => hc

lemma nodup_length_le {s l : List Color} (h : s.Nodup) (hsub : ∀ c ∈ s, c ∈ l) :
    s.length ≤ l.length := by
  calc s.length = s.toFinset.card := (List.toFinset_card_of_nodup h).symm
    _ ≤ l.toFinset.card := Finset.card_le_card (by
        intro c hc
        rw [List.mem_toFinset] at hc ⊢
        exact hsub c hc)
    _ ≤ l.length := l.toFinset_card_le

/-- Main invariant of the growth loop: a returned subset is duplicate-free,
drawn from the palette, and no larger than `max` of the start size and `n`. -/
lemma growLoop_invariant {mat : DistFn} {md : ℚ} {colors : List Color} {n : ℤ} :
    ∀ (fuel : Nat) (subset s : List Color),
      growLoop mat md colors n fuel subset = .ok (some s) →
      subset.Nodup → (∀ c ∈ subset, c ∈ colors) →
      s.Nodup ∧ (∀ c ∈ s, c ∈ colors) ∧ (s.length : ℤ) ≤ max (subset.length : ℤ) n := by
  intro fuel
  induction fuel with
  | zero =>
    intro subset s h hnd hsub
    by_cases hlt : (subset.length : ℤ) < n
    · simp [growLoop, hlt] at h
    · simp only [growLoop, if_neg hlt] at h
      have hs : subset = s := Option.some.inj (Except.ok.inj h)
      subst hs
      exact ⟨hnd, hsub, le_max_left _ _⟩
  | succ fuel ih =>
    intro subset s h hnd hsub
    by_cases hlt : (subset.length : ℤ) < n
    · simp only [growLoop, if_pos hlt] at h
      cases hscan : growScan mat md subset colors 0 none with
      | error e =>
        rw [hscan] at h
        exact absurd h (by simp)
      | ok ov =>
        rw [hscan] at h
        cases ov with
        | none => exact ih _ _ h hnd hsub
        | some v =>
          have hv : v ∈ colors ∧ v ∉ subset := by
            rcases growScan_some hscan with hb | hm
            · exact absurd hb (by simp)
            · exact hm
          have hnd2 : (subset ++ [v]).Nodup := by
            rw [List.nodup_append]
            exact ⟨hnd, List.nodup_singleton v,
              fun c hc hcv => hv.2 ((List.mem_singleton.1 hcv) ▸ hc)⟩
          have hsub2 : ∀ c ∈ subset ++ [v], c ∈ colors := by
            intro c hc
            rcases List.mem_append.1 hc with hc1 | hc2
            · exact hsub c hc1
            · rw [List.mem_singleton.1 hc2]
              exact hv.1
          rcases ih _ _ h hnd2 hsub2 with ⟨h1, h2, h3⟩
          refine ⟨h1, h2, ?_⟩
          have hle : (subset.length : ℤ) + 1 ≤ n := hlt
          calc (s.length : ℤ) ≤ max (((subset ++ [v]).length : Nat) : ℤ) n := h3
            _ = max ((subset.length : ℤ) + 1) n := by
                congr 1
                simp
            _ = n := max_eq_right hle
            _ ≤ max (subset.length : ℤ) n := le_max_right _ _
    · simp only [growLoop, if_neg hlt] at h
      have hs : subset = s := Option.some.inj (Except.ok.inj h)
      subst hs
      exact ⟨hnd, hsub, le_max_left _ _⟩

/-- C1 (amended): a subset returned by `find_differentiated_colors` is
duplicate-free, drawn entirely from `colors`, and of size at most
`|colors|` and at most `max 2 n`; the claimed bound `min n |colors|` does hold
whenever `n ≥ 2`, but not for `n < 2` (the seed pair is kept regardless). -/
theorem claim_C1_amended : ∀ (mat : DistFn) (minDist : ℚ) (colors : List Color) (n : ℤ)
    (fuel : Nat) (s : List Color),
    find_differentiated_colors mat minDist colors n fuel = .ok (some s) →
    s.Nodup ∧ (∀ c ∈ s, c ∈ colors) ∧ s.length ≤ colors.length ∧
      (s.length : ℤ) ≤ max 2 n ∧ (2 ≤ n → (s.length : ℤ) ≤ min n (colors.length : ℤ)) := by
  intro mat md colors n fuel s h
  rcases growLoop_invariant fuel (seedSubset mat colors) s h (seedSubset_nodup mat colors)
      seedSubset_subset with ⟨h1, h2, h3⟩
  have hlen2 : ((seedSubset mat colors).length : ℤ) ≤ 2 := by
    exact_mod_cast seedSubset_length_le mat colors
  have hmax : (s.length : ℤ) ≤ max 2 n := le_trans h3 (max_le_max hlen2 (le_refl n))
  have hcard : s.length ≤ colors.length := nodup_length_le h1 h2
  refine ⟨h1, h2, hcard, hmax, fun hn => ?_⟩
  have hsn : (s.length : ℤ) ≤ n := by
    rw [max_eq_right hn] at hmax
    exact hmax
  exact le_min hsn (by exact_mod_cast hcard)

/-- C1 (counterexample): with palette `[0, 1]` at distance 10, `n = 1` and no
`min_dist` constraint, the function returns the whole seed pair — size 2,
exceeding `min(n, |colors|) = 1`. -/
theorem claim_C1_counterexample :
    find_differentiated_colors exDist 0 [0, 1] 1 5 = .ok (some [0, 1]) ∧
    ¬ (([0, 1] : List Color).length ≤ min 1 ([0, 1] : List Color).length) := by
  constructor
  · decide
  · decide

/-- C1 (witness): the amended bound evaluated on the four-colour example with
`n = 3`, which returns `{A, B, C}`. -/
theorem claim_C1_witness :
    ([0, 1, 2] : List Color).Nodup ∧
    (∀ c ∈ ([0, 1, 2] : List Color), c ∈ ([0, 1, 2, 3] : List Color)) ∧
    ([0, 1, 2] : List Color).length ≤ ([0, 1, 2, 3] : List Color).length ∧
    (([0, 1, 2] : List Color).length : ℤ) ≤ max 2 3 ∧
    (2 ≤ (3 : ℤ) → (([0, 1, 2] : List Color).length : ℤ) ≤
      min 3 (([0, 1, 2, 3] : List Color).length : ℤ)) :=
  claim_C1_amended exDist 0 [0, 1, 2, 3] 3 5 [0, 1, 2] (by
    norm_num [find_differentiated_colors, seedSubset, bestPair, pairsAfter, seedScan, exDist,
              growLoop, growScan, isBelowMinDist, meanDist])

/-- C2: on the specification's own scenario (matrix `AB=10, AC=1, AD=5, BC=6,
BD=2, CD=8`, `n = 3`, `min_dist = 9`) the source does NOT terminate early with
`{A, B}`: after seeding `[A, B]` every growth round rejects both remaining
colours and selects nobody, the subset never changes, and the `while` loop
spins forever — for every fuel bound the loop is still running (`.ok none`),
so no value is ever returned. -/
theorem claim_C2_infinite_loop :
    seedSubset exDist [0, 1, 2, 3] = [0, 1] ∧
    ∀ fuel : Nat, find_differentiated_colors exDist 9 [0, 1, 2, 3] 3 fuel = .ok none := by
  have hseed : seedSubset exDist [0, 1, 2, 3] = [0, 1] := by decide
  refine ⟨hseed, fun fuel => ?_⟩
  have hscan : growScan exDist 9 [0, 1] [0, 1, 2, 3] 0 none = .ok none := by decide
  show growLoop exDist 9 [0, 1, 2, 3] 3 fuel (seedSubset exDist [0, 1, 2, 3]) = .ok none
  rw [hseed]
  exact growLoop_stuck hscan fuel (by decide)

/-- C3: for a one-colour palette and `n = 3` the source does not return the
single colour: the seed phase yields an empty subset, the first growth round
reaches `statistics.mean([])` on the lone candidate, and the call raises
`statistics.StatisticsError` (for every matrix and every `min_dist`). -/
theorem claim_C3_raises : ∀ (mat : DistFn) (minDist : ℚ) (c : Color) (fuel : Nat),
    find_differentiated_colors mat minDist [c] 3 (fuel + 1) = .error () := by
  intro mat md c fuel
  have hseed : seedSubset mat [c] = [] := by
    simp [seedSubset, bestPair, pairsAfter, seedScan]
  show growLoop mat md [c] 3 (fuel + 1) (seedSubset mat [c]) = .error ()
  rw [hseed]
  simp only [growLoop, List.length_nil, Nat.cast_zero]
  rw [if_pos (by norm_num : (0 : ℤ) < 3)]
  have hscan : growScan mat md [] [c] 0 none = .error () := by
    simp [growScan, isBelowMinDist]
  rw [hscan]

/-- C4 (counterexample): with a negative `n` the function raises nothing and
does return a result — the seed pair — so no `InvalidArgument` validation
exists. -/
theorem claim_C4_counterexample :
    find_differentiated_colors exDist 0 [0, 1] (-1) 5 = .ok (some [0, 1]) := by
  decide

/-- C4 (amended): `find_differentiated_colors` performs no argument
validation.  For negative `n` it returns the seed subset without error; for an
empty palette with positive `n` (and a supplied matrix) the growth loop never
terminates — no error is raised and no result is returned, for any fuel. -/
theorem claim_C4_amended : ∀ (mat : DistFn) (minDist : ℚ),
    (∀ (colors : List Color) (n : ℤ) (fuel : Nat), n < 0 →
      find_differentiated_colors mat minDist colors n fuel =
        .ok (some (seedSubset mat colors))) ∧
    (∀ (n : ℤ) (fuel : Nat), 0 < n →
      find_differentiated_colors mat minDist [] n fuel = .ok none) := by
  intro mat md
  constructor
  · intro colors n fuel hn
    show growLoop mat md colors n fuel (seedSubset mat colors) = _
    apply growLoop_not_lt
    have h0 : (0 : ℤ) ≤ ((seedSubset mat colors).length : ℤ) := Int.ofNat_nonneg _
    exact not_lt.2 (le_trans (le_of_lt hn) h0)
  · intro n fuel hn
    have hseed : seedSubset mat ([] : List Color) = [] := by
      simp [seedSubset, bestPair, pairsAfter, seedScan]
    show growLoop mat md [] n fuel (seedSubset mat []) = _
    rw [hseed]
    exact growLoop_stuck (show growScan mat md [] [] 0 none = .ok none from rfl) fuel
      (by simpa using hn)

/-- C4 (witness): the amended behaviour at `n = -2` on a two-colour palette
and at `n = 3` on the empty palette. -/
theorem claim_C4_witness :
    find_differentiated_colors exDist 0 [0, 1] (-2) 4 = .ok (some (seedSubset exDist [0, 1])) ∧
    find_differentiated_colors exDist 0 [] 3 5 = .ok none :=
  ⟨(claim_C4_amended exDist 0).1 [0, 1] (-2) 4 (by decide),
   (claim_C4_amended exDist 0).2 3 5 (by decide)⟩

/-- C8: whenever the function returns a subset of size at least 2 from a
duplicate-free palette, the seed pair exists, both its colours are in the
returned subset, its distance is the global maximum over all scanned pairs,
and it is the first pair in palette iteration order attaining that maximum
(everything strictly earlier in the scan is strictly smaller). -/
theorem claim_C8_seed_pair : ∀ (mat : DistFn) (minDist : ℚ) (colors : List Color) (n : ℤ)
    (fuel : Nat) (s : List Color), colors.Nodup →
    find_differentiated_colors mat minDist colors n fuel = .ok (some s) →
    2 ≤ s.length →
    ∃ a b, bestPair mat colors = some (a, b) ∧ a ≠ b ∧ a ∈ s ∧ b ∈ s ∧
      (∀ p ∈ pairsAfter colors, mat p.1 p.2 ≤ mat a b) ∧
      ∃ l1 l2, pairsAfter colors = l1 ++ (a, b) :: l2 ∧
        (∀ p ∈ l1, mat p.1 p.2 < mat a b) := by
  intro mat md colors n fuel s hnd h hlen
  cases hq : bestPair mat colors with
  | none =>
    exfalso
    have hseed : seedSubset mat colors = [] := by simp [seedSubset, hq]
    have h2 : growLoop mat md colors n fuel [] = .ok (some s) := by
      rw [← hseed]
      exact h
    have hs := growLoop_empty_start fuel s h2
    rw [hs] at hlen
    simp at hlen
  | some q =>
    obtain ⟨a, b⟩ := q
    have hab : a ≠ b := pairsAfter_ne hnd (bestPair_mem hq)
    have hseed : seedSubset mat colors = [a, b] := by simp [seedSubset, hq, hab]
    have hmem : ∀ c ∈ seedSubset mat colors, c ∈ s := growLoop_mono fuel _ s h
    rcases bestPair_first hq with ⟨l1, l2, hsplit, _, hl1, hl2⟩
    refine ⟨a, b, rfl, hab, ?_, ?_, ?_, l1, l2, hsplit, hl1⟩
    · exact hmem a (by rw [hseed]; simp)
    · exact hmem b (by rw [hseed]; simp)
    · intro p hp
      rw [hsplit] at hp
      rcases List.mem_append.1 hp with h1 | h2
      · exact le_of_lt (hl1 p h1)
      · rcases List.mem_cons.1 h2 with rfl | h3
        · exact le_refl _
        · exact hl2 p h3

/-- C8 (witness): on the four-colour example with `n = 3` the returned subset
`{A, B, C}` contains the seed pair `(A, B)` of maximal distance 10. -/
theorem claim_C8_witness :
    ∃ a b, bestPair exDist [0, 1, 2, 3] = some (a, b) ∧ a ≠ b ∧
      a ∈ ([0, 1, 2] : List Color) ∧ b ∈ ([0, 1, 2] : List Color) ∧
      (∀ p ∈ pairsAfter [0, 1, 2, 3], exDist p.1 p.2 ≤ exDist a b) ∧
      ∃ l1 l2, pairsAfter [0, 1, 2, 3] = l1 ++ (a, b) :: l2 ∧
        (∀ p ∈ l1, exDist p.1 p.2 < exDist a b) :=
  claim_C8_seed_pair exDist 0 [0, 1, 2, 3] 3 5 [0, 1, 2] (by decide)
    (by norm_num [find_differentiated_colors, seedSubset, bestPair, pairsAfter, seedScan, exDist,
                  growLoop, growScan, isBelowMinDist, meanDist])
    (by decide)

/-- C9: on a duplicate-free palette with some strictly positive pairwise
distance, every `n ≤ 1` (including `n = 0`) still returns the full two-element
seed pair: the loop condition is already satisfied, so the requested size is
ignored and the result is strictly larger than `n`. -/
theorem claim_C9_ignores_small_n : ∀ (mat : DistFn) (minDist : ℚ) (colors : List Color)
    (n : ℤ) (fuel : Nat), colors.Nodup →
    (∃ p ∈ pairsAfter colors, 0 < mat p.1 p.2) → n ≤ 1 →
    ∃ a b, bestPair mat colors = some (a, b) ∧ a ≠ b ∧
      find_differentiated_colors mat minDist colors n fuel = .ok (some [a, b]) := by
  intro mat md colors n fuel hnd hex hn
  rcases seedScan_some_of_exists hex with ⟨q, hq⟩
  obtain ⟨a, b⟩ := q
  have hbp : bestPair mat colors = some (a, b) := hq
  have hab : a ≠ b := pairsAfter_ne hnd (bestPair_mem hbp)
  have hseed : seedSubset mat colors = [a, b] := by simp [seedSubset, hbp, hab]
  refine ⟨a, b, hbp, hab, ?_⟩
  show growLoop mat md colors n fuel (seedSubset mat colors) = _
  rw [hseed]
  apply growLoop_not_lt
  have hl : (([a, b] : List Color).length : ℤ) = 2 := by simp
  rw [hl]
  omega

/-- C9 (witness): palette `[0, 1]` at distance 10 with `n = 0` returns the
seed pair, of size 2 greater than `n`. -/
theorem claim_C9_witness :
    ∃ a b, bestPair exDist [0, 1] = some (a, b) ∧ a ≠ b ∧
      find_differentiated_colors exDist 0 [0, 1] 0 3 = .ok (some [a, b]) :=
  claim_C9_ignores_small_n exDist 0 [0, 1] 0 3 (by decide)
    ⟨(0, 1), by decide, by decide⟩ (by decide)

/-- C5: on a duplicate-free palette, the builder's external-call trace
(`pairsAfter colors`, one `delta_e_cie2000` call per element) contains exactly
one ordered representative of each unordered pair `{a, b}` of distinct
members, and the built matrix is symmetric: `dist_mat[a][b] = dist_mat[b][a]`. -/
theorem claim_C5_symmetry_single_call : ∀ (f : DistFn) (colors : List Color) (a b : Color),
    colors.Nodup → a ∈ colors → b ∈ colors → a ≠ b →
    (pairsAfter colors).countP (unordered a b) = 1 ∧
    matLookup (calculate_distance_matrix f colors) a b =
      matLookup (calculate_distance_matrix f colors) b a := by
  intro f colors a b hnd ha hb hab
  refine ⟨countP_pairsAfter_one hnd ha hb hab, ?_⟩
  rcases calc_lookup_both (f := f) hnd ha hb hab with ⟨d, h1, h2⟩
  rw [h1, h2]

/-- C5 (witness): the trace and the symmetry on the three-colour palette
`[0, 1, 2]` for the pair `{0, 2}`. -/
theorem claim_C5_witness :
    (pairsAfter [0, 1, 2]).countP (unordered 0 2) = 1 ∧
    matLookup (calculate_distance_matrix exDist [0, 1, 2]) 0 2 =
      matLookup (calculate_distance_matrix exDist [0, 1, 2]) 2 0 :=
  claim_C5_symmetry_single_call exDist [0, 1, 2] 0 2 (by decide) (by decide) (by decide)
    (by decide)

/-- C6: after building a matrix over a duplicate-free palette, looking up any
ordered pair of distinct palette members succeeds (no `KeyError`). -/
theorem claim_C6_lookup_total : ∀ (f : DistFn) (colors : List Color) (a b : Color),
    colors.Nodup → a ∈ colors → b ∈ colors → a ≠ b →
    (matLookup (calculate_distance_matrix f colors) a b).isSome = true := by
  intro f colors a b hnd ha hb hab
  rcases calc_lookup_both (f := f) hnd ha hb hab with ⟨d, h1, _⟩
  rw [h1]
  rfl

/-- C6 (witness): the round-trip lookup on `[0, 1, 2]` for the ordered pair
`(2, 1)`. -/
theorem claim_C6_witness :
    (matLookup (calculate_distance_matrix exDist [0, 1, 2]) 2 1).isSome = true :=
  claim_C6_lookup_total exDist [0, 1, 2] 2 1 (by decide) (by decide) (by decide) (by decide)

/-- C7: when the `colormath` dependency is absent, the decorated matrix
builder — and the selector called without a precomputed matrix — fails with
the capability-unavailable error before performing a single external distance
call (the call trace is empty), so no partial matrix is ever built. -/
theorem claim_C7_capability_guard : ∀ (f : DistFn) (minDist : ℚ) (colors : List Color)
    (n : ℤ) (fuel : Nat),
    calculate_distance_matrix_traced false f colors = (.error .capabilityUnavailable, []) ∧
    find_differentiated_colors_nomatrix false f minDist colors n fuel =
      (.error .capabilityUnavailable, []) := by
  intro f md colors n fuel
  constructor
  · rfl
  · rfl

/-- Brightness trichotomy: `is_bright` and `is_dark` compare one and the same
cached value against the same threshold, so exactly one of them holds. -/
lemma is_bright_or_dark (c : XtermColor) :
    (c.is_bright = true ∧ c.is_dark = false) ∨ (c.is_bright = false ∧ c.is_dark = true) := by
  by_cases h : 1 / 4 ≤ c.perceived_brightness_sq
  · left
    have h2 : ¬ (c.perceived_brightness_sq < 1 / 4) := not_lt.2 h
    constructor
    · simp only [XtermColor.is_bright, decide_eq_true_eq]
      exact h
    · simp only [XtermColor.is_dark, decide_eq_false_iff_not]
      exact h2
  · right
    have h2 : c.perceived_brightness_sq < 1 / 4 := not_le.1 h
    constructor
    · simp only [XtermColor.is_bright, decide_eq_false_iff_not]
      exact h
    · simp only [XtermColor.is_dark, decide_eq_true_eq]
      exact h2

lemma initColors_bright_mem {isbg : Bool} {cmap : List (String × Nat × Nat)}
    {e : String × XtermColor} (he : e ∈ (initColors isbg cmap).2.1) :
    e.2.is_bright = true := by
  induction cmap with
  | nil => simp [initColors] at he
  | cons row rest ih =>
    obtain ⟨nm, code, rgb⟩ := row
    cases hb : (⟨code, rgb, nm, isbg⟩ : XtermColor).is_bright with
    | true =>
      simp only [initColors, hb, if_true] at he
      rcases List.mem_cons.1 he with rfl | he2
      · exact hb
      · exact ih he2
    | false =>
      simp only [initColors, hb, Bool.false_eq_true, if_false] at he
      exact ih he

lemma initColors_dark_mem {isbg : Bool} {cmap : List (String × Nat × Nat)}
    {e : String × XtermColor} (he : e ∈ (initColors isbg cmap).2.2) :
    e.2.is_bright = false := by
  induction cmap with
  | nil => simp [initColors] at he
  | cons row rest ih =>
    obtain ⟨nm, code, rgb⟩ := row
    cases hb : (⟨code, rgb, nm, isbg⟩ : XtermColor).is_bright with
    | true =>
      simp only [initColors, hb, if_true] at he
      exact ih he
    | false =>
      simp only [initColors, hb, Bool.false_eq_true, if_false] at he
      rcases List.mem_cons.1 he with rfl | he2
      · exact hb
      · exact ih he2

lemma initColors_mem_all_iff {isbg : Bool} {cmap : List (String × Nat × Nat)}
    (e : String × XtermColor) :
    e ∈ (initColors isbg cmap).1 ↔
      e ∈ (initColors isbg cmap).2.1 ∨ e ∈ (initColors isbg cmap).2.2 := by
  induction cmap with
  | nil => simp [initColors]
  | cons row rest ih =>
    obtain ⟨nm, code, rgb⟩ := row
    cases hb : (⟨code, rgb, nm, isbg⟩ : XtermColor).is_bright with
    | true =>
      simp only [initColors, hb, if_true, List.mem_cons, ih]
      tauto
    | false =>
      simp only [initColors, hb, Bool.false_eq_true, if_false, List.mem_cons, ih]
      tauto

/-- C10: for every colour exactly one of `is_bright` / `is_dark` holds
(`is_bright` iff the perceived brightness is at least 0.5, stated on squares
since the square root is monotone; `is_dark` iff it is below 0.5), and the
classifying loop of `XtermCodes.__init__` therefore splits `all_colors` into
`bright_colors` and `dark_colors` exactly: their union is `all_colors` and
they are disjoint. -/
theorem claim_C10_brightness_partition :
    (∀ c : XtermColor, (c.is_bright = true ↔ 1 / 4 ≤ c.perceived_brightness_sq) ∧
      (c.is_dark = true ↔ c.perceived_brightness_sq < 1 / 4) ∧
      ((c.is_bright = true ∧ c.is_dark = false) ∨ (c.is_bright = false ∧ c.is_dark = true))) ∧
    ∀ (isbg : Bool) (cmap : List (String × Nat × Nat)) (e : String × XtermColor),
      (e ∈ (initColors isbg cmap).1 ↔
        e ∈ (initColors isbg cmap).2.1 ∨ e ∈ (initColors isbg cmap).2.2) ∧
      ¬ (e ∈ (initColors isbg cmap).2.1 ∧ e ∈ (initColors isbg cmap).2.2) := by
  constructor
  · intro c
    exact ⟨by simp [XtermColor.is_bright], by simp [XtermColor.is_dark], is_bright_or_dark c⟩
  · intro isbg cmap e
    refine ⟨initColors_mem_all_iff e, ?_⟩
    rintro ⟨h1, h2⟩
    have hc := initColors_bright_mem h1
    rw [initColors_dark_mem h2] at hc
    exact absurd hc (by simp)
